import Mathlib

/-!
Shallow embedding of the notes JSON-RPC server
(`internal/server`: types.go, server.go, resources.go / handlers.go, and the
transport loop `Run`). Go strings are modelled as Lean `String` (character
level; the byte/character distinction is irrelevant for the properties
proved, and is noted where it could matter). The Go `map[string]string`
note store is modelled as an association list in iteration order; Go map
iteration order is unspecified, which the list order subsumes. Fallible Go
functions returning `(T, error)` are modelled as `Except String T`, with
the error strings taken verbatim from the source.
-/

/-- JSON values, used for the dynamically typed pieces of the protocol:
request identifiers (`ID interface{}`), raw parameter payloads
(`Params json.RawMessage`), and tool arguments (`map[string]interface{}`).
`null` also stands for an absent identifier (decoding an absent or null
`id` into `interface{}` yields nil in Go). -/
inductive JValue where
  | null
  | bool (b : Bool)
  | num (n : Int)
  | str (s : String)
  | arr (xs : List JValue)
  | obj (fields : List (String × JValue))

/-- Lookup of a key in a decoded JSON object (Go map indexing; absent key
yields nothing, matching Go's nil interface for a missing key). -/
def jLookup (fields : List (String × JValue)) (k : String) : Option JValue :=
  match fields with
  | [] => none
  | (k2, v) :: rest => if k2 = k then some v else jLookup rest k

/-- JSON-RPC error codes, from `types.go`. -/
def ErrParse : Int := -32700

/-- Invalid JSON-RPC request (bad version / missing method). -/
def ErrInvalidReq : Int := -32600

/-- Requested method does not exist. -/
def ErrMethodNotFound : Int := -32601

/-- Invalid method parameters. -/
def ErrInvalidParams : Int := -32602

/-- Internal JSON-RPC error. -/
def ErrInternal : Int := -32603

/-- Custom code: resource was not found. -/
def ErrNotFound : Int := -32001

/-- Custom code: unsupported operation. -/
def ErrUnsupported : Int := -32002

/-- The note store: `map[string]string` from `Server.notes`, modelled as an
association list in iteration order. -/
abbrev Notes := List (String × String)

/-- Go map assignment `s.notes[name] = content`: overwrite the entry if the
key is present, otherwise add it. -/
def setNote (notes : Notes) (n c : String) : Notes :=
  match notes with
  | [] => [(n, c)]
  | (k, v) :: rest => if k = n then (n, c) :: rest else (k, v) :: setNote rest n c

/-- Go map lookup `content, ok := s.notes[name]`. -/
def getNote (notes : Notes) (n : String) : Option String :=
  match notes with
  | [] => none
  | (k, v) :: rest => if k = n then some v else getNote rest n

/-- Go `strings.Contains`, as a character-level scan: the needle is a prefix
of some suffix of the haystack. -/
def strHasSub (l sub : List Char) : Bool :=
  match l with
  | [] => sub.isEmpty
  | _ :: t => sub.isPrefixOf l || strHasSub t sub

/-- Function `strings.Contains(s, sub)` on strings. -/
def goContains (s sub : String) : Bool :=
  strHasSub s.data sub.data

/-! ### Model of `net/url.Parse`

`ReadResource` calls `url.Parse`. The parser is modelled here at the
character level: fragment (`#`) cut with fragment escape validation
(`setFragment`), the control-character check, Go's `getScheme` with its
scheme character set and lowercasing, the query (`?`) cut (Go stores the
raw query unvalidated), the `//`-authority split with userinfo, host and
port validation (`parseAuthority` / `parseHost` / `validOptionalPort` and
the host mode of `unescape`), the colon check on the first path segment of
scheme-less URIs, and percent-decoding of the path with escape validation
(`setPath`). Two deliberate deviations, each noted at its definition: the
host value is kept raw rather than percent-decoded (the server never reads
it, only its validity matters), and IPv6 zone escapes are validated with
the stricter host rule, which only shrinks the set of URIs the model
accepts. Path percent-decoding turns each `%XX` into one character, where
Go produces one byte; the two agree on escapes below 0x80, and theorems
about the decoded path are stated for escape-free URIs. -/

/-- A parsed URI: the fields of `url.URL` the server reads. The `host`
field keeps the raw authority text (userinfo and port included, escapes
undecoded): the server never reads it, so only the validity checks on it
matter. -/
structure ParsedURI where
  scheme : String
  host : String
  path : String
deriving DecidableEq, Repr

/-- Characters rejected anywhere in a URL by `url.Parse`
(`stringContainsCTLByte`). -/
def isCtlChar (c : Char) : Bool :=
  c.val < 32 || c.val == 127

/-- Everything before the first occurrence of a separator character
(used for the `#` fragment cut and the `?` query cut). -/
def takeUntilChar (sep : Char) : List Char → List Char
  | [] => []
  | c :: rest => if c = sep then [] else c :: takeUntilChar sep rest

/-- Result of Go's `getScheme`: no scheme present, a scheme plus the
remainder after the colon, or a parse failure (colon first). -/
inductive SchemeRes where
  | noScheme
  | scheme (sch : List Char) (rest : List Char)
  | failed

/-- Go `getScheme` scan: letters always allowed; digits and `+ - .` allowed
except first; a colon ends the scheme (error if first); anything else means
the input has no scheme. -/
def getSchemeAux (first : Bool) (acc : List Char) : List Char → SchemeRes
  | [] => .noScheme
  | c :: rest =>
    if c.isAlpha then getSchemeAux false (acc ++ [c]) rest
    else if c.isDigit || c = '+' || c = '-' || c = '.' then
      if first then .noScheme else getSchemeAux false (acc ++ [c]) rest
    else if c = ':' then
      if first then .failed else .scheme acc rest
    else .noScheme

/-- Hex digit value (Go's `unhex`). -/
def hexVal (c : Char) : Option Nat :=
  if c.isDigit then some (c.toNat - '0'.toNat)
  else if 'a' ≤ c ∧ c ≤ 'f' then some (c.toNat - 'a'.toNat + 10)
  else if 'A' ≤ c ∧ c ≤ 'F' then some (c.toNat - 'A'.toNat + 10)
  else none

/-- Percent-decoding of a path (Go `setPath` / `unescape`): each `%XX` with
two hex digits becomes one character; a malformed escape is an error. -/
def unescapePath : List Char → Option (List Char)
  | [] => some []
  | c :: rest =>
    if c = '%' then
      match rest with
      | a :: b :: rest2 =>
        match hexVal a, hexVal b with
        | some ha, some hb => (unescapePath rest2).map (fun l => Char.ofNat (16 * ha + hb) :: l)
        | _, _ => none
      | _ => none
    else (unescapePath rest).map (fun l => c :: l)

/-- Split an authority-plus-path remainder at the first `/`, keeping the
slash with the path (Go `split(rest[2:], '/', false)`). -/
def spanNoSlash : List Char → List Char × List Char
  | [] => ([], [])
  | c :: rest =>
    if c = '/' then ([], c :: rest)
    else
      let (a, b) := spanNoSlash rest
      (c :: a, b)

/-- Whether a character list starts with `/`. -/
def startsSlash : List Char → Bool
  | '/' :: _ => true
  | _ => false

/-- Split at the first occurrence of a separator: the part before it, and
the part after when it occurs (Go `split(s, sep, true)`). -/
def splitAtFirst (sep : Char) : List Char → List Char × Option (List Char)
  | [] => ([], none)
  | c :: rest =>
    if c = sep then ([], some rest)
    else (c :: (splitAtFirst sep rest).1, (splitAtFirst sep rest).2)

/-- Split at the last occurrence of a separator: the parts before and after
it, or nothing when the separator does not occur (Go `strings.LastIndex`). -/
def splitAtLast (sep : Char) : List Char → Option (List Char × List Char)
  | [] => none
  | c :: rest =>
    match splitAtLast sep rest with
    | some (a, b) => some (c :: a, b)
    | none => if c = sep then some ([], rest) else none

/-- Validation of percent-escapes only (Go `unescape` in fragment or
userinfo mode, where only a malformed `%XX` sequence is an error). -/
def validEscapes : List Char → Bool
  | [] => true
  | c :: rest =>
    if c = '%' then
      match rest with
      | a :: b :: rest2 =>
        match hexVal a, hexVal b with
        | some _, some _ => validEscapes rest2
        | _, _ => false
      | _ => false
    else validEscapes rest

/-- Sub-delimiter characters of RFC 3986, as accepted by Go's
`shouldEscape` (the apostrophe is written by its code point 39). -/
def isSubDelim (c : Char) : Bool :=
  c = '!' || c = '$' || c = '&' || c.toNat == 39 || c = '(' || c = ')' ||
  c = '*' || c = '+' || c = ',' || c = ';' || c = '='

/-- Characters Go's `shouldEscape(c, encodeHost)` accepts unescaped in a
host: ASCII alphanumerics, the unreserved marks, sub-delimiters, the extra
host set (colon, square and angle brackets, and the double quote, written
by its code point 34), plus any non-ASCII character (`unescape` rejects
only ASCII characters that would need escaping). -/
def validHostBareChar (c : Char) : Bool :=
  c.isAlphanum || c = '-' || c = '_' || c = '.' || c = '~' || isSubDelim c ||
  c = ':' || c = '[' || c = ']' || c = '<' || c = '>' || c.toNat == 34 ||
  c.toNat ≥ 128

/-- Validation of a host's characters (Go `unescape` in host mode): every
ASCII character must be a valid bare host character, and a percent-escape
is rejected when it encodes an ASCII byte other than `%25` (Go's rule
`unhex(s[i+1]) < 8 && s[i:i+3] != "%25"`). Applied uniformly, including to
IPv6 zone identifiers, where Go is slightly more permissive; the model
therefore only rejects more. -/
def validHostChars : List Char → Bool
  | [] => true
  | c :: rest =>
    if c = '%' then
      match rest with
      | a :: b :: rest2 =>
        match hexVal a, hexVal b with
        | some ha, some _ =>
          if ha < 8 ∧ ¬(a = '2' ∧ b = '5') then false else validHostChars rest2
        | _, _ => false
      | _ => false
    else if validHostBareChar c then validHostChars rest
    else false

/-- Go `validOptionalPort`: empty, or a colon followed by decimal digits. -/
def validOptionalPort : List Char → Bool
  | [] => true
  | ':' :: rest => rest.all Char.isDigit
  | _ => false

/-- Go `parseHost` as a validity check: a bracketed host needs a closing
bracket with a valid optional port after it, an unbracketed host containing
a colon needs a valid port after the last colon, and all characters must
pass the host escape rules. The host value itself is kept raw in the model
(Go percent-decodes it, but the server never reads the host). -/
def parseHostValid (host : List Char) : Bool :=
  (match host with
   | '[' :: _ =>
     match splitAtLast ']' host with
     | none => false
     | some (_, afterBracket) => validOptionalPort afterBracket
   | _ =>
     match splitAtLast ':' host with
     | none => true
     | some (_, afterColon) => validOptionalPort (':' :: afterColon))
  && validHostChars host

/-- Characters Go's `validUserinfo` accepts: ASCII alphanumerics and a
fixed punctuation set; any other rune, including non-ASCII, is rejected. -/
def validUserinfoChar (c : Char) : Bool :=
  c.isAlphanum || c = '-' || c = '.' || c = '_' || c = ':' || c = '~' ||
  isSubDelim c || c = '%' || c = '@'

/-- Go `parseAuthority` as a validity check: with a userinfo part (before
the last `@`) the userinfo characters and escapes must be valid, and the
host after it must pass `parseHostValid`. -/
def parseAuthorityValid (auth : List Char) : Bool :=
  match splitAtLast '@' auth with
  | none => parseHostValid auth
  | some (userinfo, host) =>
    userinfo.all validUserinfoChar && validEscapes userinfo && parseHostValid host

/-- The fragment check applied after a successful parse (Go `setFragment`):
a present fragment must have well-formed percent-escapes. -/
def withFragCheck (base : Option ParsedURI) (frag : Option (List Char)) : Option ParsedURI :=
  match base, frag with
  | none, _ => none
  | some u, none => some u
  | some u, some f => if validEscapes f then some u else none

/-- The part of `url.parse` after scheme extraction and query cut:
authority validation, the opaque case, and path decoding. -/
def afterScheme (scheme : String) (rest : List Char) : Option ParsedURI :=
  match rest with
  | '/' :: '/' :: r =>
    if scheme = "" ∧ startsSlash r then
      (unescapePath ('/' :: '/' :: r)).map (fun p => ⟨scheme, "", ⟨p⟩⟩)
    else
      if parseAuthorityValid (spanNoSlash r).1 then
        (unescapePath (spanNoSlash r).2).map
          (fun p => ⟨scheme, ⟨(spanNoSlash r).1⟩, ⟨p⟩⟩)
      else none
  | '/' :: r =>
    (unescapePath ('/' :: r)).map (fun p => ⟨scheme, "", ⟨p⟩⟩)
  | _ =>
    if scheme ≠ "" then some ⟨scheme, "", ""⟩
    else
      let segment := takeUntilChar '/' rest
      if segment.contains ':' then none
      else (unescapePath rest).map (fun p => ⟨"", "", ⟨p⟩⟩)

/-- Model of `url.Parse` on characters: cut the fragment, reject control
characters in the pre-fragment part, extract and lowercase the scheme, cut
the query, parse authority and path, then validate the fragment's
escapes. -/
def parseURIChars (cs : List Char) : Option ParsedURI :=
  let before := (splitAtFirst '#' cs).1
  let frag := (splitAtFirst '#' cs).2
  if before.any isCtlChar then none
  else
    withFragCheck
      (match getSchemeAux true [] before with
       | .failed => none
       | .noScheme => afterScheme "" (takeUntilChar '?' before)
       | .scheme sch r => afterScheme ⟨sch.map Char.toLower⟩ (takeUntilChar '?' r))
      frag

/-- Model of `url.Parse` on strings. -/
def parseURI (uri : String) : Option ParsedURI :=
  parseURIChars uri.data

/-- Go `name[1:]` applied when `name != ""` in `ReadResource`: strip the
leading path separator (character level; the stripped character is always
the one-byte `/` or the path is empty). -/
def stripFirst (s : String) : String :=
  match s with
  | ⟨[]⟩ => s
  | ⟨_ :: cs⟩ => ⟨cs⟩

/-! ### Capability registry (`resources.go`) -/

/-- A note resource descriptor, from `types.go`. -/
structure Resource where
  uri : String
  name : String
  description : String
  mimeType : String
deriving DecidableEq, Repr

/-- A prompt argument descriptor, from `types.go`. -/
structure PromptArgument where
  name : String
  description : String
  required : Bool
deriving DecidableEq, Repr

/-- A prompt descriptor, from `types.go`. -/
structure Prompt where
  name : String
  description : String
  arguments : List PromptArgument
deriving DecidableEq, Repr

/-- A tool descriptor, from `types.go`; the input schema is kept as its raw
JSON text. -/
structure Tool where
  name : String
  description : String
  inputSchema : String
deriving DecidableEq, Repr

/-- A text content item, from `types.go`. -/
structure TextContent where
  type : String
  text : String
deriving DecidableEq, Repr

/-- A prompt message, from `types.go`. -/
structure PromptMessage where
  role : String
  content : TextContent
deriving DecidableEq, Repr

/-- Result of `GetPrompt`, from `types.go`. -/
structure GetPromptResult where
  description : String
  messages : List PromptMessage
deriving DecidableEq, Repr

/-- The server state: its name and the note store. -/
structure Server where
  name : String
  notes : Notes

/-- Constructor `NewServer`: a server with the given name and an empty note store. -/
def NewServer (name : String) : Server :=
  { name := name, notes := [] }

/-- Operation `ListResources`: one Resource per note, in store iteration order. -/
def ListResources (notes : Notes) : List Resource :=
  notes.map (fun p =>
    { uri := "note://internal/" ++ p.1
      name := "Note: " ++ p.1
      description := "A simple note named " ++ p.1
      mimeType := "text/plain" })

/-- Operation `ReadResource`: parse the URI, require the `note` scheme, strip the
path's leading separator to get the note name, and look it up. -/
def ReadResource (notes : Notes) (uri : String) : Except String String :=
  match parseURI uri with
  | none => .error "invalid URI: parse error"
  | some u =>
    if u.scheme ≠ "note" then .error ("unsupported URI scheme: " ++ u.scheme)
    else
      let name := stripFirst u.path
      match getNote notes name with
      | none => .error ("note not found: " ++ name)
      | some content => .ok content

/-- Operation `ListPrompts`: the single static `summarize-notes` descriptor. -/
def ListPrompts : List Prompt :=
  [{ name := "summarize-notes"
     description := "Creates a summary of all notes"
     arguments := [{ name := "style"
                     description := "Style of the summary (brief/detailed)"
                     required := false }] }]

/-- The notes list rendered by `GetPrompt`: one `- name: content` line per
note, concatenated in store iteration order. -/
def notesListText (notes : Notes) : String :=
  notes.foldl (fun acc p => acc ++ ("- " ++ p.1 ++ ": " ++ p.2 ++ "\n")) ""

/-- Go `map[string]string` indexing with the zero value `""` for an absent
key (`arguments["style"]` in `GetPrompt`). -/
def jStrLookup (args : List (String × String)) (k : String) : String :=
  match args with
  | [] => ""
  | (k2, v) :: rest => if k2 = k then v else jStrLookup rest k

/-- Operation `GetPrompt`: only `summarize-notes` exists; `style` defaults to `brief`
when unset or empty; `detailed` appends the extra instruction; the result is
one user message over the rendered notes list. -/
def GetPrompt (notes : Notes) (name : String) (arguments : List (String × String)) :
    Except String GetPromptResult :=
  if name ≠ "summarize-notes" then .error ("unknown prompt: " ++ name)
  else
    let style0 := (jStrLookup arguments "style")
    let style := if style0 = "" then "brief" else style0
    let detailPrompt := if style = "detailed" then " Give extensive details." else ""
    .ok { description := "Summarize the current notes"
          messages := [{ role := "user"
                         content := { type := "text"
                                      text := "Here are the current notes to summarize:" ++
                                        detailPrompt ++ "\n\n" ++ notesListText notes } }] }

/-- Operation `ListTools`: the single static `add-note` descriptor. -/
def ListTools : List Tool :=
  [{ name := "add-note"
     description := "Add a new note"
     inputSchema := "object schema: name, content" }]

/-- Operation `CallTool`: only `add-note` exists; `name` and `content` must be present
string arguments and non-empty (Go `arguments[k].(string)` plus the empty
check); on success the note is written and one text item is returned. -/
def CallTool (notes : Notes) (tool : String) (args : List (String × JValue)) :
    Except String (List TextContent) × Notes :=
  if tool ≠ "add-note" then (.error ("unknown tool: " ++ tool), notes)
  else
    match jLookup args "name" with
    | some (.str n) =>
      if n = "" then (.error "missing or invalid name", notes)
      else
        match jLookup args "content" with
        | some (.str c) =>
          if c = "" then (.error "missing or invalid content", notes)
          else
            (.ok [{ type := "text", text := "Added note '" ++ n ++ "' with content: " ++ c }],
             setNote notes n c)
        | _ => (.error "missing or invalid content", notes)
    | _ => (.error "missing or invalid name", notes)

/-! ### RPC envelope types (`types.go`) and handlers (`handlers.go`) -/

/-- A JSON-RPC request. `id` is the decoded `interface{}` identifier
(`JValue.null` for absent or null); `params` is `none` when the request
carries no `params` field at all (nil `json.RawMessage`), and otherwise the
decoded JSON value. -/
structure RPCRequest where
  jsonrpc : String
  id : JValue
  method : String
  params : Option JValue

/-- A JSON-RPC error object. `data` is the string the handlers put there. -/
structure RPCError where
  code : Int
  message : String
  data : String

/-- The typed results the six handlers produce (`Result interface{}`). -/
inductive RPCResult where
  | resources (rs : List Resource)
  | content (s : String)
  | prompts (ps : List Prompt)
  | promptResult (r : GetPromptResult)
  | tools (ts : List Tool)
  | toolOutput (ts : List TextContent)

/-- A JSON-RPC response: `result` present and `error` absent on success
(`omitempty` on both fields), and conversely on failure. -/
structure RPCResponse where
  jsonrpc : String
  id : JValue
  result : Option RPCResult
  error : Option RPCError

/-- Helper `newErrorResponse`: error response with the request's identifier; the
data field is the underlying error text when there is one, else the
message. -/
def newErrorResponse (id : JValue) (code : Int) (message : String) (err : Option String) :
    RPCResponse :=
  { jsonrpc := "2.0", id := id, result := none,
    error := some { code := code, message := message, data := err.getD message } }

/-- A success response carrying a result. -/
def okResponse (id : JValue) (r : RPCResult) : RPCResponse :=
  { jsonrpc := "2.0", id := id, result := some r, error := none }

/-! #### Parameter decoding

`json.Unmarshal` of a raw params payload into each handler's params struct,
modelled on `JValue`: a JSON null leaves the struct zeroed; an object fills
the matching fields (absent or null field means the zero value, a
wrong-typed field is an error); any other JSON value is an error. Unknown
fields are ignored, as in Go. -/

/-- Decode `{uri string}` (`handleReadResource`). -/
def decodeReadResourceParams (v : JValue) : Except String String :=
  match v with
  | .null => .ok ""
  | .obj fs =>
    match jLookup fs "uri" with
    | none => .ok ""
    | some .null => .ok ""
    | some (.str s) => .ok s
    | some _ => .error "cannot unmarshal value into field uri of type string"
  | _ => .error "cannot unmarshal value into params struct"

/-- Decode a JSON object of string values into a `map[string]string`
(`arguments` of `handleGetPrompt`); a null value decodes to `""`. -/
def decodeStringPairs (fs : List (String × JValue)) : Except String (List (String × String)) :=
  match fs with
  | [] => .ok []
  | (k, .str v) :: rest => (decodeStringPairs rest).map (fun l => (k, v) :: l)
  | (k, .null) :: rest => (decodeStringPairs rest).map (fun l => (k, "") :: l)
  | (_, _) :: _ => .error "cannot unmarshal value into map of type string"

/-- Params of `handleGetPrompt`: `{name string, arguments map[string]string}`;
`arguments` is `none` when absent or null (a nil Go map). -/
structure GetPromptParams where
  name : String
  arguments : Option (List (String × String))

/-- Decode `GetPromptParams`. -/
def decodeGetPromptParams (v : JValue) : Except String GetPromptParams :=
  match v with
  | .null => .ok { name := "", arguments := none }
  | .obj fs =>
    match (match jLookup fs "name" with
           | none => .ok ""
           | some .null => .ok ""
           | some (.str s) => .ok s
           | some _ => .error "cannot unmarshal value into field name of type string" :
            Except String String) with
    | .error e => .error e
    | .ok nm =>
      match jLookup fs "arguments" with
      | none => .ok { name := nm, arguments := none }
      | some .null => .ok { name := nm, arguments := none }
      | some (.obj afs) => (decodeStringPairs afs).map (fun l => { name := nm, arguments := some l })
      | some _ => .error "cannot unmarshal value into field arguments of type map"
  | _ => .error "cannot unmarshal value into params struct"

/-- Params of `handleCallTool`: `{name string, arguments map[string]interface{}}`;
`arguments` is `none` when absent or null (a nil Go map). -/
structure CallToolParams where
  name : String
  arguments : Option (List (String × JValue))

/-- Decode `CallToolParams`. -/
def decodeCallToolParams (v : JValue) : Except String CallToolParams :=
  match v with
  | .null => .ok { name := "", arguments := none }
  | .obj fs =>
    match (match jLookup fs "name" with
           | none => .ok ""
           | some .null => .ok ""
           | some (.str s) => .ok s
           | some _ => .error "cannot unmarshal value into field name of type string" :
            Except String String) with
    | .error e => .error e
    | .ok nm =>
      match jLookup fs "arguments" with
      | none => .ok { name := nm, arguments := none }
      | some .null => .ok { name := nm, arguments := none }
      | some (.obj afs) => .ok { name := nm, arguments := some afs }
      | some _ => .error "cannot unmarshal value into field arguments of type map"
  | _ => .error "cannot unmarshal value into params struct"

/-! #### The six handlers -/

/-- Handler `handleListResources`. -/
def handleListResources (s : Server) (req : RPCRequest) : RPCResponse :=
  okResponse req.id (.resources (ListResources s.notes))

/-- The error translation switch of `handleReadResource`, keyed on the
underlying error text exactly as the Go `strings.Contains` switch is. -/
def readResourceErrorResponse (id : JValue) (e : String) : RPCResponse :=
  if goContains e "note not found" then newErrorResponse id ErrNotFound "note not found" (some e)
  else if goContains e "unsupported URI scheme" then
    newErrorResponse id ErrUnsupported "unsupported URI scheme" (some e)
  else newErrorResponse id ErrInternal "internal error" (some e)

/-- Handler `handleReadResource`. -/
def handleReadResource (s : Server) (req : RPCRequest) : RPCResponse :=
  match req.params with
  | none => newErrorResponse req.id ErrInvalidParams "params required" none
  | some pv =>
    match decodeReadResourceParams pv with
    | .error e => newErrorResponse req.id ErrInvalidParams "invalid URI parameter" (some e)
    | .ok uri =>
      if uri = "" then newErrorResponse req.id ErrInvalidParams "URI is required" none
      else
        match ReadResource s.notes uri with
        | .error e => readResourceErrorResponse req.id e
        | .ok content => okResponse req.id (.content content)

/-- Handler `handleListPrompts`. -/
def handleListPrompts (req : RPCRequest) : RPCResponse :=
  okResponse req.id (.prompts ListPrompts)

/-- Handler `handleGetPrompt`. -/
def handleGetPrompt (s : Server) (req : RPCRequest) : RPCResponse :=
  match req.params with
  | none => newErrorResponse req.id ErrInvalidParams "params required" none
  | some pv =>
    match decodeGetPromptParams pv with
    | .error e => newErrorResponse req.id ErrInvalidParams "invalid prompt parameters" (some e)
    | .ok p =>
      if p.name = "" then newErrorResponse req.id ErrInvalidParams "prompt name is required" none
      else
        match GetPrompt s.notes p.name (p.arguments.getD []) with
        | .error e =>
          if goContains e "unknown prompt" then
            newErrorResponse req.id ErrNotFound "prompt not found" (some e)
          else newErrorResponse req.id ErrInternal "internal error" (some e)
        | .ok r => okResponse req.id (.promptResult r)

/-- Handler `handleListTools`. -/
def handleListTools (req : RPCRequest) : RPCResponse :=
  okResponse req.id (.tools ListTools)

/-- The error translation of `handleCallTool`: unknown tool maps to the
custom not-found code, anything else to invalid params. -/
def callToolErrorResponse (id : JValue) (e : String) : RPCResponse :=
  if goContains e "unknown tool" then newErrorResponse id ErrNotFound "tool not found" (some e)
  else newErrorResponse id ErrInvalidParams "invalid tool arguments" (some e)

/-- Handler `handleCallTool`; the one handler that can change the store. -/
def handleCallTool (s : Server) (req : RPCRequest) : RPCResponse × Server :=
  match req.params with
  | none => (newErrorResponse req.id ErrInvalidParams "params required" none, s)
  | some pv =>
    match decodeCallToolParams pv with
    | .error e => (newErrorResponse req.id ErrInvalidParams "invalid tool parameters" (some e), s)
    | .ok p =>
      if p.name = "" then (newErrorResponse req.id ErrInvalidParams "tool name is required" none, s)
      else
        match CallTool s.notes p.name (p.arguments.getD []) with
        | (.error e, notes2) => (callToolErrorResponse req.id e, { s with notes := notes2 })
        | (.ok items, notes2) => (okResponse req.id (.toolOutput items), { s with notes := notes2 })

/-- Dispatcher `handleRequest`. Params-requiring methods are rejected
before their handler runs when the request carries no params object; an
unknown method yields method-not-found. Returns the response together with
the (possibly updated) server state. -/
def handleRequest (s : Server) (req : RPCRequest) : RPCResponse × Server :=
  if req.method = "" then (newErrorResponse req.id ErrInvalidReq "method is required" none, s)
  else
    match req.method with
    | "list_resources" => (handleListResources s req, s)
    | "read_resource" =>
      match req.params with
      | none => (newErrorResponse req.id ErrInvalidParams "params required" none, s)
      | some _ => (handleReadResource s req, s)
    | "list_prompts" => (handleListPrompts req, s)
    | "get_prompt" =>
      match req.params with
      | none => (newErrorResponse req.id ErrInvalidParams "params required" none, s)
      | some _ => (handleGetPrompt s req, s)
    | "list_tools" => (handleListTools req, s)
    | "call_tool" =>
      match req.params with
      | none => (newErrorResponse req.id ErrInvalidParams "params required" none, s)
      | some _ => handleCallTool s req
    | m => (newErrorResponse req.id ErrMethodNotFound "method not found" (some ("unknown method: " ++ m)), s)

/-! ### The transport loop (`server.go` `Run`)

One inbound message is either undecodable (`malformed`: the JSON decoder
returns a non-EOF error) or a decoded `RPCRequest`; the input stream is the
list of messages, end of list being EOF. Encoding a response is assumed to
succeed, and the external cancellation signal (never fired by this core) is
not modelled. The loop either stops cleanly on EOF or terminates reporting
a fatal decode failure. -/

/-- One inbound message as seen by the decoder. -/
inductive InMsg where
  | malformed
  | msg (req : RPCRequest)

/-- How the loop ended: `clean` models `return nil` at EOF, `decodeFailure`
models `return fmt.Errorf("failed to decode request: %w", err)`. -/
inductive RunResult where
  | clean
  | decodeFailure
deriving DecidableEq, Repr

/-- The parse-error response emitted before the loop dies: code -32700 and
no request identifier (the `ID` field is left nil). -/
def parseErrorResponse : RPCResponse :=
  { jsonrpc := "2.0", id := .null, result := none,
    error := some { code := ErrParse, message := "parse error", data := "decode error" } }

/-- The invalid-version response: code -32600 with the original identifier. -/
def versionErrorResponse (id : JValue) : RPCResponse :=
  { jsonrpc := "2.0", id := id, result := none,
    error := some { code := ErrInvalidReq, message := "invalid JSON-RPC version",
                    data := "expected version 2.0" } }

/-- The empty-method response: code -32600 with the original identifier. -/
def methodErrorResponse (id : JValue) : RPCResponse :=
  { jsonrpc := "2.0", id := id, result := none,
    error := some { code := ErrInvalidReq, message := "method is required",
                    data := "empty method" } }

/-- Loop `Run`: the transport loop over a list of inbound messages, returning the
emitted responses in order and how the loop ended. -/
def runLoop (s : Server) : List InMsg → List RPCResponse × RunResult
  | [] => ([], .clean)
  | .malformed :: _ => ([parseErrorResponse], .decodeFailure)
  | .msg req :: rest =>
    if req.jsonrpc ≠ "2.0" then
      let (rs, r) := runLoop s rest
      (versionErrorResponse req.id :: rs, r)
    else if req.method = "" then
      let (rs, r) := runLoop s rest
      (methodErrorResponse req.id :: rs, r)
    else
      let (resp, s2) := handleRequest s req
      let (rs, r) := runLoop s2 rest
      (resp :: rs, r)

/-! ### Helper lemmas -/

theorem getNote_setNote_self (notes : Notes) (n c : String) :
    getNote (setNote notes n c) n = some c := by
  induction notes with
  | nil => simp [setNote, getNote]
  | cons p rest ih =>
    obtain ⟨k, v⟩ := p
    by_cases hk : k = n
    · simp [setNote, getNote, hk]
    · simp [setNote, getNote, hk, ih]

theorem getNote_mem (notes : Notes) (n c : String) (h : getNote notes n = some c) :
    (n, c) ∈ notes := by
  induction notes with
  | nil => simp [getNote] at h
  | cons p rest ih =>
    obtain ⟨k, v⟩ := p
    by_cases hk : k = n
    · simp [getNote, hk] at h
      simp [hk, h]
    · simp [getNote, hk] at h
      exact List.mem_cons_of_mem _ (ih h)

theorem setNote_append (notes : Notes) (n c : String)
    (h : n ∉ notes.map Prod.fst) : setNote notes n c = notes ++ [(n, c)] := by
  induction notes with
  | nil => simp [setNote]
  | cons p rest ih =>
    obtain ⟨k, v⟩ := p
    simp only [List.map_cons, List.mem_cons] at h
    push_neg at h
    have hk : ¬ k = n := fun hs => h.1 hs.symm
    simp [setNote, hk, ih h.2]

theorem getNote_of_mem_nodup (notes : Notes) (n c : String)
    (hnd : (notes.map Prod.fst).Nodup) (hm : (n, c) ∈ notes) :
    getNote notes n = some c := by
  induction notes with
  | nil => simp at hm
  | cons p rest ih =>
    obtain ⟨k, v⟩ := p
    simp only [List.map_cons, List.nodup_cons] at hnd
    rcases List.mem_cons.mp hm with h1 | h2
    · have hn : n = k := congrArg Prod.fst h1
      have hc : c = v := congrArg Prod.snd h1
      subst hn
      subst hc
      simp [getNote]
    · have hk : ¬ k = n := by
        intro hkn
        subst hkn
        exact hnd.1 (List.mem_map.mpr ⟨(k, c), h2, rfl⟩)
      simp [getNote, hk, ih hnd.2 h2]

theorem isPrefixOf_append_self (l t : List Char) : l.isPrefixOf (l ++ t) = true := by
  induction l with
  | nil => simp [List.isPrefixOf]
  | cons c rest ih => simp [List.isPrefixOf, ih]

theorem strHasSub_of_isPrefixOf (l sub : List Char) (h : sub.isPrefixOf l = true) :
    strHasSub l sub = true := by
  cases l with
  | nil =>
    cases sub with
    | nil => rfl
    | cons a t => simp [List.isPrefixOf] at h
  | cons c t => simp [strHasSub, h]

theorem goContains_append_self (pre t : String) : goContains (pre ++ t) pre = true := by
  have : (pre ++ t).data = pre.data ++ t.data := rfl
  rw [goContains, this]
  exact strHasSub_of_isPrefixOf _ _ (isPrefixOf_append_self _ _)

theorem splitAtFirst_no_sep (sep : Char) (l : List Char) (h : ∀ c ∈ l, c ≠ sep) :
    splitAtFirst sep l = (l, none) := by
  induction l with
  | nil => rfl
  | cons c rest ih =>
    have ih2 := ih (fun d hd => h d (List.mem_cons_of_mem _ hd))
    rw [splitAtFirst, if_neg (h c (List.mem_cons_self ..)), ih2]

/-- Well-formedness of a response produced for a request with identifier
`idv`: the identifier is echoed and exactly one of result/error is present. -/
def RespWF (idv : JValue) (r : RPCResponse) : Prop :=
  r.id = idv ∧ ((r.result.isSome ∧ r.error = none) ∨ (r.result = none ∧ r.error.isSome))

theorem respWF_newErrorResponse (i : JValue) (code : Int) (m : String) (e : Option String) :
    RespWF i (newErrorResponse i code m e) :=
  ⟨rfl, Or.inr ⟨rfl, rfl⟩⟩

theorem respWF_okResponse (i : JValue) (r : RPCResult) :
    RespWF i (okResponse i r) :=
  ⟨rfl, Or.inl ⟨rfl, rfl⟩⟩

theorem respWF_readResourceErrorResponse (i : JValue) (e : String) :
    RespWF i (readResourceErrorResponse i e) := by
  rw [readResourceErrorResponse]
  split
  · exact respWF_newErrorResponse ..
  · split
    · exact respWF_newErrorResponse ..
    · exact respWF_newErrorResponse ..

theorem respWF_callToolErrorResponse (i : JValue) (e : String) :
    RespWF i (callToolErrorResponse i e) := by
  rw [callToolErrorResponse]
  split
  · exact respWF_newErrorResponse ..
  · exact respWF_newErrorResponse ..

theorem respWF_handleReadResource (s : Server) (req : RPCRequest) :
    RespWF req.id (handleReadResource s req) := by
  rw [handleReadResource]
  split
  · exact respWF_newErrorResponse ..
  · split
    · exact respWF_newErrorResponse ..
    · split
      · exact respWF_newErrorResponse ..
      · split
        · exact respWF_readResourceErrorResponse ..
        · exact respWF_okResponse ..

theorem respWF_handleGetPrompt (s : Server) (req : RPCRequest) :
    RespWF req.id (handleGetPrompt s req) := by
  rw [handleGetPrompt]
  split
  · exact respWF_newErrorResponse ..
  · split
    · exact respWF_newErrorResponse ..
    · split
      · exact respWF_newErrorResponse ..
      · split
        · split
          · exact respWF_newErrorResponse ..
          · exact respWF_newErrorResponse ..
        · exact respWF_okResponse ..

theorem respWF_handleCallTool (s : Server) (req : RPCRequest) :
    RespWF req.id (handleCallTool s req).1 := by
  rw [handleCallTool]
  split
  · exact respWF_newErrorResponse ..
  · split
    · exact respWF_newErrorResponse ..
    · split
      · exact respWF_newErrorResponse ..
      · split
        · exact respWF_callToolErrorResponse ..
        · exact respWF_okResponse ..

theorem respWF_handleRequest (s : Server) (req : RPCRequest) :
    RespWF req.id (handleRequest s req).1 := by
  rw [handleRequest]
  split
  · exact respWF_newErrorResponse ..
  · split
    · exact respWF_okResponse ..
    · split
      · exact respWF_newErrorResponse ..
      · exact respWF_handleReadResource ..
    · exact respWF_okResponse ..
    · split
      · exact respWF_newErrorResponse ..
      · exact respWF_handleGetPrompt ..
    · exact respWF_okResponse ..
    · split
      · exact respWF_newErrorResponse ..
      · exact respWF_handleCallTool ..
    · exact respWF_newErrorResponse ..

/-- C3: every response produced by the dispatcher carries the request's
identifier (whatever it is: null, string, or number), and carries exactly
one of a result or an error: success responses have a result and no error,
error responses have an error and no result, and no response has both or
neither. -/
theorem dispatcher_echoes_id_and_exactly_one_of_result_or_error
    (s : Server) (req : RPCRequest) :
    (handleRequest s req).1.id = req.id ∧
    (((handleRequest s req).1.result.isSome ∧ (handleRequest s req).1.error = none) ∨
     ((handleRequest s req).1.result = none ∧ (handleRequest s req).1.error.isSome)) :=
  respWF_handleRequest s req

/-- C2: in any state of the transport loop, a malformed message causes
exactly one parse-error response (code -32700, no request identifier) and a
fatal decode-failure termination; a well-formed message with a version
other than "2.0" causes one -32600 response carrying the original
identifier after which the loop keeps serving the remaining messages from
the same state; end-of-input stops the loop cleanly with no error. -/
theorem transport_loop_fatal_parse_nonfatal_version_clean_eof
    (s : Server) (rest : List InMsg) (req : RPCRequest) :
    runLoop s [] = ([], .clean) ∧
    (runLoop s (.malformed :: rest) = ([parseErrorResponse], .decodeFailure) ∧
      parseErrorResponse.error =
        some { code := ErrParse, message := "parse error", data := "decode error" } ∧
      parseErrorResponse.id = .null) ∧
    (req.jsonrpc ≠ "2.0" →
      runLoop s (.msg req :: rest) =
        (versionErrorResponse req.id :: (runLoop s rest).1, (runLoop s rest).2) ∧
      (versionErrorResponse req.id).error =
        some { code := ErrInvalidReq, message := "invalid JSON-RPC version",
               data := "expected version 2.0" } ∧
      (versionErrorResponse req.id).id = req.id) := by
  refine ⟨rfl, ⟨rfl, rfl, rfl⟩, fun h => ⟨?_, rfl, rfl⟩⟩
  rcases hr : runLoop s rest with ⟨rs, r⟩
  simp only [runLoop, if_pos h, hr]

/-- Witness for the transport-loop claim at a concrete bad-version
request. -/
theorem transport_loop_fatal_parse_nonfatal_version_clean_eof_witness :
    (RPCRequest.mk "1.0" (.num 1) "x" none).jsonrpc ≠ "2.0" ∧
    (runLoop (NewServer "t") [.msg (RPCRequest.mk "1.0" (.num 1) "x" none)] =
       (versionErrorResponse (RPCRequest.mk "1.0" (.num 1) "x" none).id ::
          (runLoop (NewServer "t") []).1,
        (runLoop (NewServer "t") []).2) ∧
     (versionErrorResponse (RPCRequest.mk "1.0" (.num 1) "x" none).id).error =
       some { code := ErrInvalidReq, message := "invalid JSON-RPC version",
              data := "expected version 2.0" } ∧
     (versionErrorResponse (RPCRequest.mk "1.0" (.num 1) "x" none).id).id =
       (RPCRequest.mk "1.0" (.num 1) "x" none).id) :=
  ⟨by decide,
   (transport_loop_fatal_parse_nonfatal_version_clean_eof (NewServer "t") [] _).2.2 (by decide)⟩

/-- C7: a params-requiring method with no params object is rejected by the
dispatcher with -32602 "params required" and an untouched state (the
handler never runs), and any method name outside the fixed six-method set
is rejected with -32601, also leaving the state untouched. -/
theorem dispatcher_rejects_missing_params_and_unknown_methods
    (s : Server) (req : RPCRequest) (hm : req.method ≠ "") :
    ((req.method = "read_resource" ∨ req.method = "get_prompt" ∨ req.method = "call_tool") →
      req.params = none →
      handleRequest s req = (newErrorResponse req.id ErrInvalidParams "params required" none, s)) ∧
    ((req.method ≠ "list_resources" ∧ req.method ≠ "read_resource" ∧
      req.method ≠ "list_prompts" ∧ req.method ≠ "get_prompt" ∧
      req.method ≠ "list_tools" ∧ req.method ≠ "call_tool") →
      handleRequest s req =
        (newErrorResponse req.id ErrMethodNotFound "method not found"
          (some ("unknown method: " ++ req.method)), s)) := by
  obtain ⟨j, i, m, p⟩ := req
  simp only at hm
  constructor
  · intro hmem hp
    simp only at hp
    subst hp
    rcases hmem with rfl | rfl | rfl <;> rfl
  · intro hne
    obtain ⟨h1, h2, h3, h4, h5, h6⟩ := hne
    simp only at h1 h2 h3 h4 h5 h6
    rw [handleRequest, if_neg hm]
    split
    · rename_i heq
      exact absurd heq h1
    · rename_i heq
      exact absurd heq h2
    · rename_i heq
      exact absurd heq h3
    · rename_i heq
      exact absurd heq h4
    · rename_i heq
      exact absurd heq h5
    · rename_i heq
      exact absurd heq h6
    · rfl

/-- Witness for the dispatcher-rejection claim: a `read_resource` request
without params and an unknown method `foo`. -/
theorem dispatcher_rejects_missing_params_and_unknown_methods_witness :
    ((RPCRequest.mk "2.0" .null "read_resource" none).method ≠ "" ∧
     handleRequest (NewServer "w") (RPCRequest.mk "2.0" .null "read_resource" none) =
       (newErrorResponse .null ErrInvalidParams "params required" none, NewServer "w")) ∧
    ((RPCRequest.mk "2.0" (.str "a") "foo" none).method ≠ "" ∧
     handleRequest (NewServer "w") (RPCRequest.mk "2.0" (.str "a") "foo" none) =
       (newErrorResponse (.str "a") ErrMethodNotFound "method not found"
         (some ("unknown method: " ++ "foo")), NewServer "w")) :=
  ⟨⟨by decide,
    (dispatcher_rejects_missing_params_and_unknown_methods (NewServer "w") _ (by decide)).1
      (Or.inl rfl) rfl⟩,
   ⟨by decide,
    (dispatcher_rejects_missing_params_and_unknown_methods (NewServer "w") _ (by decide)).2
      (by refine ⟨?_, ?_, ?_, ?_, ?_, ?_⟩ <;> decide)⟩⟩

/-- C9: a request rejected for a missing params object on a
params-requiring method, or carrying a method name outside the fixed set,
leaves the note store exactly as it was. -/
theorem dispatcher_error_paths_leave_store_unchanged
    (s : Server) (req : RPCRequest)
    (h : (req.params = none ∧
           (req.method = "read_resource" ∨ req.method = "get_prompt" ∨
            req.method = "call_tool")) ∨
         (req.method ≠ "list_resources" ∧ req.method ≠ "read_resource" ∧
          req.method ≠ "list_prompts" ∧ req.method ≠ "get_prompt" ∧
          req.method ≠ "list_tools" ∧ req.method ≠ "call_tool")) :
    (handleRequest s req).2 = s := by
  obtain ⟨j, i, m, p⟩ := req
  rcases h with ⟨hp, hmem⟩ | ⟨h1, h2, h3, h4, h5, h6⟩
  · simp only at hp
    subst hp
    rcases hmem with hm | hm | hm <;> (simp only at hm; subst hm; rfl)
  · simp only at h1 h2 h3 h4 h5 h6
    rw [handleRequest]
    split
    · rfl
    · split
      · rename_i heq
        exact absurd heq h1
      · rename_i heq
        exact absurd heq h2
      · rename_i heq
        exact absurd heq h3
      · rename_i heq
        exact absurd heq h4
      · rename_i heq
        exact absurd heq h5
      · rename_i heq
        exact absurd heq h6
      · rfl

/-- Witness for the unchanged-store claim at an unknown method. -/
theorem dispatcher_error_paths_leave_store_unchanged_witness :
    ((RPCRequest.mk "2.0" .null "nope" (some (.obj []))).method ≠ "list_resources" ∧
     (RPCRequest.mk "2.0" .null "nope" (some (.obj []))).method ≠ "read_resource" ∧
     (RPCRequest.mk "2.0" .null "nope" (some (.obj []))).method ≠ "list_prompts" ∧
     (RPCRequest.mk "2.0" .null "nope" (some (.obj []))).method ≠ "get_prompt" ∧
     (RPCRequest.mk "2.0" .null "nope" (some (.obj []))).method ≠ "list_tools" ∧
     (RPCRequest.mk "2.0" .null "nope" (some (.obj []))).method ≠ "call_tool") ∧
    (handleRequest (NewServer "z") (RPCRequest.mk "2.0" .null "nope" (some (.obj [])))).2 =
      NewServer "z" :=
  ⟨by refine ⟨?_, ?_, ?_, ?_, ?_, ?_⟩ <;> decide,
   dispatcher_error_paths_leave_store_unchanged (NewServer "z") _
     (Or.inr (by refine ⟨?_, ?_, ?_, ?_, ?_, ?_⟩ <;> decide))⟩

/-- C5: `add-note` requires present, string-typed, non-empty `name` and
`content` arguments; with both valid it writes the pair into the store
(overwriting any existing note of that name) and returns the single text
item `Added note '<name>' with content: <content>`; with either invalid it
fails and the handler maps the failure to invalid-params (-32602); any
other tool name fails with an unknown-tool error that the handler maps to
not-found (-32001). -/
theorem callTool_add_note_validation_write_and_unknown_tool
    (notes : Notes) (args : List (String × JValue)) (tool : String) :
    (∀ n c, jLookup args "name" = some (.str n) → n ≠ "" →
        jLookup args "content" = some (.str c) → c ≠ "" →
        CallTool notes "add-note" args =
          (.ok [{ type := "text", text := "Added note '" ++ n ++ "' with content: " ++ c }],
           setNote notes n c) ∧
        getNote (setNote notes n c) n = some c) ∧
    (¬ (∃ n, jLookup args "name" = some (.str n) ∧ n ≠ "" ∧
          ∃ c, jLookup args "content" = some (.str c) ∧ c ≠ "") →
        ∃ e, CallTool notes "add-note" args = (.error e, notes) ∧
          ∀ i, callToolErrorResponse i e =
            newErrorResponse i ErrInvalidParams "invalid tool arguments" (some e)) ∧
    (tool ≠ "add-note" →
        CallTool notes tool args = (.error ("unknown tool: " ++ tool), notes) ∧
        ∀ i, callToolErrorResponse i ("unknown tool: " ++ tool) =
          newErrorResponse i ErrNotFound "tool not found" (some ("unknown tool: " ++ tool))) := by
  refine ⟨?_, ?_, ?_⟩
  · intro n c h1 hn h2 hc
    refine ⟨?_, getNote_setNote_self ..⟩
    simp [CallTool, h1, h2, hn, hc]
  · intro hno
    have mkerr : ∀ e : String, goContains e "unknown tool" = false →
        CallTool notes "add-note" args = (.error e, notes) →
        ∃ e2, CallTool notes "add-note" args = (.error e2, notes) ∧
          ∀ i, callToolErrorResponse i e2 =
            newErrorResponse i ErrInvalidParams "invalid tool arguments" (some e2) :=
      fun e hf hcall => ⟨e, hcall, fun i => by simp [callToolErrorResponse, hf]⟩
    rcases hn : jLookup args "name" with _ | v
    · exact mkerr "missing or invalid name" (by decide) (by simp [CallTool, hn])
    · rcases v with _ | b | k | str | xs | fs
      · exact mkerr "missing or invalid name" (by decide) (by simp [CallTool, hn])
      · exact mkerr "missing or invalid name" (by decide) (by simp [CallTool, hn])
      · exact mkerr "missing or invalid name" (by decide) (by simp [CallTool, hn])
      · by_cases hs : str = ""
        · exact mkerr "missing or invalid name" (by decide) (by simp [CallTool, hn, hs])
        · rcases hc : jLookup args "content" with _ | w
          · exact mkerr "missing or invalid content" (by decide) (by simp [CallTool, hn, hs, hc])
          · rcases w with _ | b2 | k2 | str2 | xs2 | fs2
            · exact mkerr "missing or invalid content" (by decide) (by simp [CallTool, hn, hs, hc])
            · exact mkerr "missing or invalid content" (by decide) (by simp [CallTool, hn, hs, hc])
            · exact mkerr "missing or invalid content" (by decide) (by simp [CallTool, hn, hs, hc])
            · by_cases ht : str2 = ""
              · exact mkerr "missing or invalid content" (by decide) (by simp [CallTool, hn, hs, hc, ht])
              · exact absurd ⟨str, hn, hs, str2, hc, ht⟩ hno
            · exact mkerr "missing or invalid content" (by decide) (by simp [CallTool, hn, hs, hc])
            · exact mkerr "missing or invalid content" (by decide) (by simp [CallTool, hn, hs, hc])
      · exact mkerr "missing or invalid name" (by decide) (by simp [CallTool, hn])
      · exact mkerr "missing or invalid name" (by decide) (by simp [CallTool, hn])
  · intro ht
    have hc : goContains ("unknown tool: " ++ tool) "unknown tool" = true := by
      have h0 : ("unknown tool: " : String) ++ tool = "unknown tool" ++ (": " ++ tool) := by
        rw [← String.append_assoc]
        rfl
      rw [h0]
      exact goContains_append_self _ _
    exact ⟨by simp [CallTool, ht], fun i => by simp [callToolErrorResponse, hc]⟩

/-- Witness for the tool-call claim: a valid call, an unknown tool, and a
call missing `content`. -/
theorem callTool_add_note_witness :
    (jLookup [("name", JValue.str "a"), ("content", JValue.str "b")] "name" =
       some (.str "a") ∧ ("a" : String) ≠ "" ∧
     jLookup [("name", JValue.str "a"), ("content", JValue.str "b")] "content" =
       some (.str "b") ∧ ("b" : String) ≠ "" ∧
     CallTool [] "add-note" [("name", JValue.str "a"), ("content", JValue.str "b")] =
       (.ok [{ type := "text", text := "Added note '" ++ "a" ++ "' with content: " ++ "b" }],
        setNote [] "a" "b") ∧
     getNote (setNote [] "a" "b") "a" = some "b") ∧
    (("x" : String) ≠ "add-note" ∧
     CallTool [] "x" [("name", JValue.str "a"), ("content", JValue.str "b")] =
       (.error ("unknown tool: " ++ "x"), []) ∧
     ∀ i, callToolErrorResponse i ("unknown tool: " ++ "x") =
       newErrorResponse i ErrNotFound "tool not found" (some ("unknown tool: " ++ "x"))) ∧
    (∃ e, CallTool [] "add-note" [("name", JValue.str "a")] = (.error e, []) ∧
      ∀ i, callToolErrorResponse i e =
        newErrorResponse i ErrInvalidParams "invalid tool arguments" (some e)) := by
  refine ⟨⟨rfl, by decide, rfl, by decide, ?_⟩, ⟨by decide, ?_⟩, ?_⟩
  · exact ((callTool_add_note_validation_write_and_unknown_tool []
      [("name", JValue.str "a"), ("content", JValue.str "b")] "x").1 "a" "b"
      rfl (by decide) rfl (by decide))
  · exact ((callTool_add_note_validation_write_and_unknown_tool []
      [("name", JValue.str "a"), ("content", JValue.str "b")] "x").2.2 (by decide))
  · refine ((callTool_add_note_validation_write_and_unknown_tool []
      [("name", JValue.str "a")] "x").2.1 ?_)
    rintro ⟨n, hn, hne, c, hc, hce⟩
    rw [show jLookup [("name", JValue.str "a")] "content" = none from rfl] at hc
    exact Option.noConfusion hc

/-- C6: `getPrompt` on `summarize-notes` always succeeds with one user-role
text message whose text is the base prompt, then the detail suffix exactly
when the `style` argument equals `detailed` (unset or empty styles default
to `brief` and produce no suffix), then a blank line and one
`- name: content` line per note in store iteration order; any other prompt
name fails with an unknown-prompt error. -/
theorem getPrompt_summarize_notes_text_and_unknown_prompt
    (notes : Notes) (name : String) (args : List (String × String)) :
    (name ≠ "summarize-notes" → GetPrompt notes name args = .error ("unknown prompt: " ++ name)) ∧
    GetPrompt notes "summarize-notes" args =
      .ok { description := "Summarize the current notes"
            messages := [{ role := "user"
                           content := { type := "text"
                                        text := "Here are the current notes to summarize:" ++
                                          (if jStrLookup args "style" = "detailed"
                                           then " Give extensive details." else "") ++
                                          "\n\n" ++ notesListText notes } }] } := by
  constructor
  · intro h
    simp [GetPrompt, h]
  · by_cases hs : jStrLookup args "style" = ""
    · simp [GetPrompt, hs]
    · by_cases hd : jStrLookup args "style" = "detailed"
      · simp [GetPrompt, hs, hd]
      · simp [GetPrompt, hs, hd]

/-- Witness for the prompt claim at an unknown prompt name. -/
theorem getPrompt_summarize_notes_witness :
    ("nope" : String) ≠ "summarize-notes" ∧
    GetPrompt [("a", "1")] "nope" [] = .error ("unknown prompt: " ++ "nope") :=
  ⟨by decide,
   (getPrompt_summarize_notes_text_and_unknown_prompt [("a", "1")] "nope" []).1 (by decide)⟩

/-- A note name that survives the URI round trip untouched: it contains no
fragment, query, or escape marker and no control characters. -/
def URLSafeName (n : String) : Prop :=
  ∀ c ∈ n.data, c ≠ '#' ∧ c ≠ '?' ∧ c ≠ '%' ∧ isCtlChar c = false

instance (n : String) : Decidable (URLSafeName n) := by
  unfold URLSafeName
  infer_instance

theorem takeUntilChar_eq_self (sep : Char) (l : List Char) (h : ∀ c ∈ l, c ≠ sep) :
    takeUntilChar sep l = l := by
  induction l with
  | nil => rfl
  | cons c rest ih =>
    rw [takeUntilChar, if_neg (h c (List.mem_cons_self ..)),
      ih (fun d hd => h d (List.mem_cons_of_mem _ hd))]

theorem unescapePath_eq_self (l : List Char) (h : ∀ c ∈ l, c ≠ '%') :
    unescapePath l = some l := by
  induction l with
  | nil => rfl
  | cons c rest ih =>
    have hc : ¬ c = '%' := h c (List.mem_cons_self ..)
    have ih2 : unescapePath rest = some rest :=
      ih (fun d hd => h d (List.mem_cons_of_mem _ hd))
    rcases rest with _ | ⟨a, _ | ⟨b, rest3⟩⟩
    · simp [unescapePath, hc]
    · have ha : ¬ a = '%' := h a (by simp)
      simp [unescapePath, hc, ha]
    · simp only [unescapePath, if_neg hc] at ih2 ⊢
      rw [ih2]
      rfl

theorem parseURI_note_internal (n : String) (h : URLSafeName n) :
    parseURI ("note://internal/" ++ n) = some ⟨"note", "internal", "/" ++ n⟩ := by
  have hdata : ("note://internal/" ++ n).data = "note://internal/".data ++ n.data := rfl
  have hchars : ∀ c ∈ ("note://internal/" ++ n).data,
      c ≠ '#' ∧ c ≠ '?' ∧ c ≠ '%' ∧ isCtlChar c = false := by
    intro c hc
    rw [hdata] at hc
    rcases List.mem_append.mp hc with h1 | h2
    · fin_cases h1 <;> exact ⟨by decide, by decide, by decide, by decide⟩
    · exact h c h2
  have hsf : splitAtFirst '#' (("note://internal/" ++ n).data) =
      (("note://internal/" ++ n).data, none) :=
    splitAtFirst_no_sep _ _ (fun c hc => (hchars c hc).1)
  have hA1 : (splitAtFirst '#' (("note://internal/" ++ n).data)).1 =
      ("note://internal/" ++ n).data := by rw [hsf]
  have hA2 : (splitAtFirst '#' (("note://internal/" ++ n).data)).2 = none := by rw [hsf]
  have hB : (("note://internal/" ++ n).data).any isCtlChar = false := by
    rw [List.any_eq_false]
    intro c hc
    simp [(hchars c hc).2.2.2]
  have hC : getSchemeAux true [] (("note://internal/" ++ n).data) =
      .scheme "note".data (("//internal/" ++ n).data) := rfl
  have hD : takeUntilChar '?' (("//internal/" ++ n).data) = ("//internal/" ++ n).data := by
    refine takeUntilChar_eq_self _ _ ?_
    intro c hc
    rw [show ("//internal/" ++ n).data = "//internal/".data ++ n.data from rfl] at hc
    rcases List.mem_append.mp hc with h1 | h2
    · fin_cases h1 <;> decide
    · exact (hchars c (by
        rw [hdata]
        exact List.mem_append.mpr (Or.inr h2))).2.1
  have hE : unescapePath ('/' :: n.data) = some ('/' :: n.data) := by
    refine unescapePath_eq_self _ ?_
    intro c hc
    rcases List.mem_cons.mp hc with rfl | h2
    · decide
    · exact (hchars c (by
        rw [hdata]
        exact List.mem_append.mpr (Or.inr h2))).2.2.1
  have hspan : spanNoSlash (("internal/" ++ n).data) = ("internal".data, '/' :: n.data) := rfl
  have hspan1 : (spanNoSlash (("internal/" ++ n).data)).1 = "internal".data := by rw [hspan]
  have hspan2 : (spanNoSlash (("internal/" ++ n).data)).2 = '/' :: n.data := by rw [hspan]
  have hbase : (match getSchemeAux true [] (("note://internal/" ++ n).data) with
      | SchemeRes.failed => none
      | SchemeRes.noScheme => afterScheme "" (takeUntilChar '?' (("note://internal/" ++ n).data))
      | SchemeRes.scheme sch r => afterScheme ⟨sch.map Char.toLower⟩ (takeUntilChar '?' r)) =
      afterScheme "note" (takeUntilChar '?' (("//internal/" ++ n).data)) := by
    rw [hC]
    rfl
  rw [parseURI, parseURIChars]
  rw [hA1, hA2, hB]
  simp only [Bool.false_eq_true, if_false]
  rw [hbase, hD]
  have hmq : ("//internal/" ++ n).data = '/' :: '/' :: ("internal/" ++ n).data := rfl
  rw [hmq]
  rw [afterScheme]
  rw [hspan1, hspan2, hE]
  rfl

theorem stripFirst_slash (n : String) : stripFirst ("/" ++ n) = n := rfl

theorem ReadResource_note_internal (notes : Notes) (n : String) (h : URLSafeName n) :
    ReadResource notes ("note://internal/" ++ n) =
      match getNote notes n with
      | none => Except.error ("note not found: " ++ n)
      | some c => Except.ok c := by
  simp only [ReadResource, parseURI_note_internal n h]
  rw [if_neg (by simp)]
  rw [stripFirst_slash]

/-- The tool-call arguments map built for an `add-note` call. -/
def addNoteArgs (n c : String) : List (String × JValue) :=
  [("name", .str n), ("content", .str c)]

/-- Evaluation of `ReadResource` through a successful parse. -/
theorem ReadResource_eq_of_parse (notes : Notes) (uri : String) (u : ParsedURI)
    (hp : parseURI uri = some u) :
    ReadResource notes uri =
      if u.scheme ≠ "note" then .error ("unsupported URI scheme: " ++ u.scheme)
      else
        match getNote notes (stripFirst u.path) with
        | none => .error ("note not found: " ++ stripFirst u.path)
        | some c => .ok c := by
  simp only [ReadResource, hp]

/-- C8 (amended): for a non-empty name free of `#`, `?`, `%` and control
characters, adding (name, c1) and then (name, c2) through the tool makes
`read_resource` of `note://internal/<name>` return c2, whatever the prior
store was. -/
theorem add_note_twice_read_returns_second
    (notes : Notes) (n c1 c2 : String)
    (hn : n ≠ "") (hsafe : URLSafeName n) (h1 : c1 ≠ "") (h2 : c2 ≠ "") :
    ReadResource
      (CallTool (CallTool notes "add-note" (addNoteArgs n c1)).2
        "add-note" (addNoteArgs n c2)).2
      ("note://internal/" ++ n) = .ok c2 := by
  have e1 : (CallTool notes "add-note" (addNoteArgs n c1)).2 = setNote notes n c1 := by
    simp [CallTool, addNoteArgs, jLookup, hn, h1]
  have e2 : ∀ ns, (CallTool ns "add-note" (addNoteArgs n c2)).2 = setNote ns n c2 :=
    fun ns => by simp [CallTool, addNoteArgs, jLookup, hn, h2]
  rw [e1, e2, ReadResource_note_internal _ _ hsafe, getNote_setNote_self]

/-- Witness for the overwrite claim at name `a`, contents `x` then `y`. -/
theorem add_note_twice_read_returns_second_witness :
    (("a" : String) ≠ "" ∧ URLSafeName "a" ∧ ("x" : String) ≠ "" ∧ ("y" : String) ≠ "") ∧
    ReadResource
      (CallTool (CallTool [] "add-note" (addNoteArgs "a" "x")).2
        "add-note" (addNoteArgs "a" "y")).2
      ("note://internal/" ++ "a") = .ok "y" :=
  ⟨⟨by decide, by decide, by decide, by decide⟩,
   add_note_twice_read_returns_second [] "a" "x" "y" (by decide) (by decide)
     (by decide) (by decide)⟩

/-- Counterexample to C8 as stated for every name: with name `a#b` both
adds succeed, yet `read_resource` of `note://internal/a#b` does not return
the second content (URL parsing cuts the fragment, so the note name looked
up is `a`); and with the empty name the add itself fails, so nothing is
written at all. -/
theorem add_note_twice_read_counterexample :
    ((CallTool [] "add-note" (addNoteArgs "a#b" "x")).1 =
      .ok [{ type := "text", text := "Added note 'a#b' with content: x" }]) ∧
    ((CallTool (CallTool [] "add-note" (addNoteArgs "a#b" "x")).2
        "add-note" (addNoteArgs "a#b" "y")).1 =
      .ok [{ type := "text", text := "Added note 'a#b' with content: y" }]) ∧
    ReadResource
      (CallTool (CallTool [] "add-note" (addNoteArgs "a#b" "x")).2
        "add-note" (addNoteArgs "a#b" "y")).2
      ("note://internal/" ++ "a#b") ≠ .ok "y" ∧
    (CallTool [] "add-note" (addNoteArgs "" "y")).1 = .error "missing or invalid name" := by
  refine ⟨rfl, rfl, ?_, rfl⟩
  rw [show ReadResource
      (CallTool (CallTool [] "add-note" (addNoteArgs "a#b" "x")).2
        "add-note" (addNoteArgs "a#b" "y")).2
      ("note://internal/" ++ "a#b") = Except.error "note not found: a" from rfl]
  exact fun h => Except.noConfusion h

theorem strAppend_left_cancel {a b c : String} (h : a ++ b = a ++ c) : b = c := by
  have h2 : a.data ++ b.data = a.data ++ c.data := congrArg String.data h
  exact String.ext (List.append_cancel_left h2)

/-- Run a sequence of `add-note` tool calls against a store. -/
def runAdds (notes : Notes) (adds : List (String × String)) : Notes :=
  adds.foldl (fun ns p => (CallTool ns "add-note" (addNoteArgs p.1 p.2)).2) notes

theorem runAdds_eq_append (adds : List (String × String)) :
    ∀ ns : Notes,
      (∀ p ∈ adds, p.1 ≠ "" ∧ p.2 ≠ "") → (adds.map Prod.fst).Nodup →
      (∀ p ∈ adds, p.1 ∉ ns.map Prod.fst) →
      runAdds ns adds = ns ++ adds := by
  induction adds with
  | nil =>
    intro ns _ _ _
    simp [runAdds]
  | cons p rest ih =>
    intro ns hne hnd hdis
    obtain ⟨n, c⟩ := p
    have hn : n ≠ "" := (hne (n, c) (by simp)).1
    have hc : c ≠ "" := (hne (n, c) (by simp)).2
    simp only [List.map_cons, List.nodup_cons] at hnd
    have step : (CallTool ns "add-note" (addNoteArgs n c)).2 = setNote ns n c := by
      simp [CallTool, addNoteArgs, jLookup, hn, hc]
    have hset : setNote ns n c = ns ++ [(n, c)] :=
      setNote_append ns n c (hdis (n, c) (by simp))
    have htail : runAdds (ns ++ [(n, c)]) rest = (ns ++ [(n, c)]) ++ rest := by
      refine ih _ (fun q hq => hne q (List.mem_cons_of_mem _ hq)) hnd.2 ?_
      intro q hq
      rw [List.map_append]
      intro habs
      rcases List.mem_append.mp habs with h1 | h2
      · exact hdis q (List.mem_cons_of_mem _ hq) h1
      · have : q.1 = n := by simpa using h2
        exact hnd.1 (this ▸ List.mem_map.mpr ⟨q, hq, rfl⟩)
    calc runAdds ns ((n, c) :: rest)
        = runAdds (setNote ns n c) rest := by simp [runAdds, step]
      _ = runAdds (ns ++ [(n, c)]) rest := by rw [hset]
      _ = (ns ++ [(n, c)]) ++ rest := htail
      _ = ns ++ ((n, c) :: rest) := by simp

theorem filter_key_length_one (l : Notes) (n c : String)
    (hnd : (l.map Prod.fst).Nodup) (hm : (n, c) ∈ l) :
    (l.filter (fun p => p.1 == n)).length = 1 := by
  induction l with
  | nil => simp at hm
  | cons q rest ih =>
    obtain ⟨k, v⟩ := q
    simp only [List.map_cons, List.nodup_cons] at hnd
    rcases List.mem_cons.mp hm with h1 | h2
    · have hk : k = n := (congrArg Prod.fst h1).symm
      subst hk
      have hnil : rest.filter (fun p => p.1 == k) = [] := by
        rw [List.filter_eq_nil_iff]
        intro q hq
        simp only [beq_iff_eq]
        intro habs
        exact hnd.1 (habs ▸ List.mem_map.mpr ⟨q, hq, rfl⟩)
      simp [List.filter_cons, hnil]
    · have hk : k ≠ n := by
        intro hkn
        subst hkn
        exact hnd.1 (List.mem_map.mpr ⟨(k, c), h2, rfl⟩)
      have : ((k, v).1 == n) = false := beq_eq_false_iff_ne.mpr hk
      simp [List.filter_cons, this, ih hnd.2 h2]

theorem listResources_uri_count (l : Notes) (n c : String)
    (hnd : (l.map Prod.fst).Nodup) (hm : (n, c) ∈ l) :
    ((ListResources l).filter (fun r => r.uri == "note://internal/" ++ n)).length = 1 := by
  rw [ListResources, List.filter_map, List.length_map]
  have hcongr : ∀ p ∈ l,
      ((fun r : Resource => r.uri == "note://internal/" ++ n) ∘
        (fun p : String × String =>
          { uri := "note://internal/" ++ p.1
            name := "Note: " ++ p.1
            description := "A simple note named " ++ p.1
            mimeType := "text/plain" : Resource })) p = (p.1 == n) := by
    intro p _
    simp only [Function.comp]
    by_cases h : p.1 = n
    · simp [h]
    · have h1 : ("note://internal/" ++ p.1 == "note://internal/" ++ n) = false :=
        beq_eq_false_iff_ne.mpr (fun habs => h (strAppend_left_cancel habs))
      have h2 : (p.1 == n) = false := beq_eq_false_iff_ne.mpr h
      rw [h1, h2]
  rw [List.filter_congr hcongr]
  exact filter_key_length_one l n c hnd hm

/-- C1 (amended): after a sequence of successful `add-note` calls with
distinct non-empty names free of `#`, `?`, `%` and control characters, and
non-empty contents, `list_resources` contains exactly one Resource per
added name with URI `note://internal/<name>`, and `read_resource` of that
URI returns exactly the content added for the name. -/
theorem add_notes_list_resources_and_read_back
    (adds : List (String × String))
    (hvals : ∀ p ∈ adds, p.1 ≠ "" ∧ p.2 ≠ "")
    (hnd : (adds.map Prod.fst).Nodup)
    (hsafe : ∀ p ∈ adds, URLSafeName p.1) :
    (∀ p ∈ adds,
      ((ListResources (runAdds [] adds)).filter
        (fun r => r.uri == "note://internal/" ++ p.1)).length = 1) ∧
    (∀ p ∈ adds,
      ReadResource (runAdds [] adds) ("note://internal/" ++ p.1) = .ok p.2) := by
  have hra : runAdds [] adds = adds := by
    simpa using runAdds_eq_append adds [] hvals hnd (by simp)
  rw [hra]
  constructor
  · intro p hp
    exact listResources_uri_count adds p.1 p.2 hnd hp
  · intro p hp
    rw [ReadResource_note_internal _ _ (hsafe p hp),
      getNote_of_mem_nodup adds p.1 p.2 hnd hp]

/-- Witness for the add/list/read claim at two concrete notes. -/
theorem add_notes_list_resources_and_read_back_witness :
    ((∀ p ∈ [("a", "x"), ("b", "y")], p.1 ≠ "" ∧ p.2 ≠ "") ∧
     (([("a", "x"), ("b", "y")].map Prod.fst).Nodup) ∧
     (∀ p ∈ [("a", "x"), ("b", "y")], URLSafeName p.1)) ∧
    ((ListResources (runAdds [] [("a", "x"), ("b", "y")])).filter
      (fun r => r.uri == "note://internal/" ++ "a")).length = 1 ∧
    ReadResource (runAdds [] [("a", "x"), ("b", "y")]) ("note://internal/" ++ "b") =
      .ok "y" := by
  refine ⟨⟨by decide, by decide, by decide⟩, ?_, ?_⟩
  · exact (add_notes_list_resources_and_read_back [("a", "x"), ("b", "y")]
      (by decide) (by decide) (by decide)).1 ("a", "x") (by simp)
  · exact (add_notes_list_resources_and_read_back [("a", "x"), ("b", "y")]
      (by decide) (by decide) (by decide)).2 ("b", "y") (by simp)

/-- Counterexample to C1 as stated for every distinct non-empty name: the
single add of note `a#b` succeeds, but `read_resource` of
`note://internal/a#b` does not return its content, because URL parsing
cuts the fragment and looks up the name `a`. -/
theorem add_notes_read_back_counterexample :
    ((CallTool [] "add-note" (addNoteArgs "a#b" "hi")).1 =
      .ok [{ type := "text", text := "Added note 'a#b' with content: hi" }]) ∧
    ("a#b" : String) ≠ "" ∧ ("hi" : String) ≠ "" ∧
    (([("a#b", "hi")].map Prod.fst).Nodup) ∧
    ReadResource (runAdds [] [("a#b", "hi")]) ("note://internal/" ++ "a#b") ≠ .ok "hi" := by
  refine ⟨rfl, by decide, by decide, by decide, ?_⟩
  rw [show ReadResource (runAdds [] [("a#b", "hi")]) ("note://internal/" ++ "a#b") =
      Except.error "note not found: a" from rfl]
  exact fun h => Except.noConfusion h

/-- Dispatch a whole sequence of requests, threading the server state. -/
def dispatchAll (s : Server) (reqs : List RPCRequest) : Server :=
  reqs.foldl (fun s2 r => (handleRequest s2 r).2) s

/-- Every note in the store has a non-empty name and non-empty content. -/
def NotesWF (notes : Notes) : Prop :=
  ∀ p ∈ notes, p.1 ≠ "" ∧ p.2 ≠ ""

theorem notesWF_setNote : ∀ (ns : Notes) (n c : String),
    NotesWF ns → n ≠ "" → c ≠ "" → NotesWF (setNote ns n c) := by
  intro ns n c
  induction ns with
  | nil =>
    intro _ hn hc p hp
    simp [setNote] at hp
    subst hp
    exact ⟨hn, hc⟩
  | cons q rest ih =>
    intro h hn hc p hp
    obtain ⟨k, v⟩ := q
    by_cases hk : k = n
    · simp [setNote, hk] at hp
      rcases hp with rfl | hp2
      · exact ⟨hn, hc⟩
      · exact h p (List.mem_cons_of_mem _ hp2)
    · simp [setNote, hk] at hp
      rcases hp with rfl | hp2
      · exact h (k, v) (List.mem_cons_self ..)
      · exact ih (fun q hq => h q (List.mem_cons_of_mem _ hq)) hn hc p hp2

theorem notesWF_callTool (ns : Notes) (t : String) (args : List (String × JValue))
    (h : NotesWF ns) : NotesWF (CallTool ns t args).2 := by
  rw [CallTool]
  split
  · exact h
  · split
    · rename_i n heq1
      split
      · exact h
      · rename_i hn
        split
        · rename_i c heq2
          split
          · exact h
          · rename_i hc
            exact notesWF_setNote ns n c h hn hc
        · exact h
    · exact h

theorem notesWF_handleRequest (s : Server) (req : RPCRequest) (h : NotesWF s.notes) :
    NotesWF (handleRequest s req).2.notes := by
  rw [handleRequest]
  split
  · exact h
  · split
    · exact h
    · split
      · exact h
      · exact h
    · exact h
    · split
      · exact h
      · exact h
    · exact h
    · split
      · exact h
      · rw [handleCallTool]
        split
        · exact h
        · split
          · exact h
          · rename_i p heqd
            split
            · exact h
            · split
              · rename_i e notes2 heq
                have h2 := notesWF_callTool s.notes p.name (p.arguments.getD []) h
                rw [heq] at h2
                exact h2
              · rename_i items notes2 heq
                have h2 := notesWF_callTool s.notes p.name (p.arguments.getD []) h
                rw [heq] at h2
                exact h2
    · exact h

theorem notesWF_dispatchAll : ∀ (reqs : List RPCRequest) (s : Server),
    NotesWF s.notes → NotesWF (dispatchAll s reqs).notes := by
  intro reqs
  induction reqs with
  | nil =>
    intro s h
    simpa [dispatchAll] using h
  | cons r rest ih =>
    intro s h
    have hstep : dispatchAll s (r :: rest) = dispatchAll (handleRequest s r).2 rest := by
      simp [dispatchAll]
    rw [hstep]
    exact ih _ (notesWF_handleRequest s r h)

/-- C10: starting from a fresh server, any sequence of dispatched requests
leaves only notes with non-empty names and contents (the one mutating
operation validates both before writing), and consequently a successful
`read_resource` never returns the empty string. -/
theorem dispatched_store_nonempty_names_contents_and_reads
    (nm : String) (reqs : List RPCRequest) :
    NotesWF (dispatchAll (NewServer nm) reqs).notes ∧
    (∀ uri c, ReadResource (dispatchAll (NewServer nm) reqs).notes uri = .ok c → c ≠ "") := by
  have hwf : NotesWF (dispatchAll (NewServer nm) reqs).notes :=
    notesWF_dispatchAll reqs (NewServer nm) (by intro p hp; simp [NewServer] at hp)
  refine ⟨hwf, ?_⟩
  intro uri c hok
  rcases hparse : parseURI uri with _ | u
  · simp [ReadResource, hparse] at hok
  · rw [ReadResource_eq_of_parse _ _ _ hparse] at hok
    split at hok
    · exact absurd hok (by simp)
    · split at hok
      · exact absurd hok (by simp)
      · rename_i c2 heq
        injection hok with hcc
        subst hcc
        exact (hwf _ (getNote_mem _ _ _ heq)).2

/-- Witness for the invariant claim: one dispatched `call_tool` request
adding note `a`, then reading it back. -/
theorem dispatched_store_nonempty_witness :
    ReadResource (dispatchAll (NewServer "t")
        [⟨"2.0", .num 7, "call_tool",
          some (.obj [("name", .str "add-note"),
                      ("arguments", .obj [("name", .str "a"), ("content", .str "b")])])⟩]).notes
      "note://internal/a" = .ok "b" ∧
    ("b" : String) ≠ "" :=
  ⟨rfl,
   (dispatched_store_nonempty_names_contents_and_reads "t"
      [⟨"2.0", .num 7, "call_tool",
        some (.obj [("name", .str "add-note"),
                    ("arguments", .obj [("name", .str "a"), ("content", .str "b")])])⟩]).2
     "note://internal/a" "b" rfl⟩
